import Mathlib

/-!
Verification of the adaptive trial-sequencing core of the PsychoPy
repository (`psychopy/data.py`): the up/down staircase (`StairHandler`),
the weighted trial sequencer (`TrialHandlerExt._createSequence`), the
plain trial sequencer (`TrialHandler`), the interleaved multi-staircase
scheduler (`MultiStairHandler`), the tabular data store (`DataHandler`)
and the Bayesian handlers (`QuestHandler`, `PsiHandler`).

Numbers are modelled as rationals.  The only non-rational arithmetic in
the modelled code is `10.0 ** x` inside `_intensityInc` / `_intensityDec`;
it is abstracted as an explicit function argument `pow10 : ℚ → ℚ` that is
threaded through, so every definition stays executable.  The QUEST
posterior object (`psychopy.contrib.quest.QuestObject`, not part of the
verified sources) is modelled as an event log of `update` calls together
with abstract functions of that log.
-/

namespace Psy

/-- Step domain of a staircase: `'lin'`, `'log'` or `'db'` in the source. -/
inductive StepType where
  | lin
  | log
  | db
deriving DecidableEq, Repr

/-- Direction of intensity change: `'up'`, `'down'` or `'start'`. -/
inductive Direction where
  | up
  | down
  | start
deriving DecidableEq, Repr

/-- State of a `StairHandler` (`psychopy/data.py`, `StairHandler.__init__`):
the fields that the staircase algorithm reads and writes.  `nReversals`
is `Option ℕ`: the source allows `None`, and in the (Python 2) completion
test `len(...) >= None` evaluates to `True`, which the `none` case of
`stairRevCriterion` reproduces. -/
structure StairState where
  nUp : ℕ
  nDown : ℕ
  stepType : StepType
  stepSizes : List ℚ
  variableStep : Bool
  stepSizeCurrent : ℚ
  nReversals : Option ℕ
  nTrials : ℕ
  finished : Bool
  thisTrialN : ℤ
  data : List ℕ
  intensities : List ℚ
  reversalPoints : List ℤ
  reversalIntensities : List ℚ
  currentDirection : Direction
  correctCounter : ℤ
  nextIntensity : ℚ
  minVal : Option ℚ
  maxVal : Option ℚ
  initialRule : ℕ
deriving DecidableEq, Repr

/-- `StairHandler._intensityInc`: apply one step upward in the configured
domain, clamp against `maxVal` when set, and reset the run counter. -/
def stairIntensityInc (pow10 : ℚ → ℚ) (s : StairState) : StairState :=
  let x :=
    match s.stepType with
    | .db => s.nextIntensity * pow10 (s.stepSizeCurrent / 20)
    | .log => s.nextIntensity * pow10 s.stepSizeCurrent
    | .lin => s.nextIntensity + s.stepSizeCurrent
  let x :=
    match s.maxVal with
    | some m => if m < x then m else x
    | none => x
  { s with nextIntensity := x, correctCounter := 0 }

/-- `StairHandler._intensityDec`: apply one step downward in the configured
domain, clamp against `minVal` when set, and reset the run counter. -/
def stairIntensityDec (pow10 : ℚ → ℚ) (s : StairState) : StairState :=
  let x :=
    match s.stepType with
    | .db => s.nextIntensity / pow10 (s.stepSizeCurrent / 20)
    | .log => s.nextIntensity / pow10 s.stepSizeCurrent
    | .lin => s.nextIntensity - s.stepSizeCurrent
  let x :=
    match s.minVal with
    | some m => if x < m then m else x
    | none => x
  { s with nextIntensity := x, correctCounter := 0 }

/-- First half of `StairHandler.calculateNextIntensity`: decide whether the
latest response produces a reversal, and the new direction.  Before the
first recorded reversal an implicit 1-up/1-down rule is used; afterwards
the configured `nDown`/`nUp` run counts decide. -/
def stairReversalAndDir (s : StairState) : Bool × Direction :=
  if s.reversalIntensities.length < 1 then
    if s.data.getLastD 0 = 1 then
      (decide (s.currentDirection = .up), .down)
    else
      (decide (s.currentDirection = .down), .up)
  else if (s.nDown : ℤ) ≤ s.correctCounter then
    (decide (s.currentDirection ≠ .down), .down)
  else if s.correctCounter ≤ -(s.nUp : ℤ) then
    (decide (s.currentDirection ≠ .up), .up)
  else
    (false, s.currentDirection)

/-- The completion test on reversals:
`len(self.reversalIntensities) >= self.nReversals`.  With the source's
`nReversals = None` the Python 2 comparison is vacuously true. -/
def stairRevCriterion (s : StairState) : Bool :=
  match s.nReversals with
  | some n => decide (n ≤ s.reversalIntensities.length)
  | none => true

/-- The `# add reversal info` block of `calculateNextIntensity`: on a
reversal, record the trial index, set the 1-up/1-down flag if this is the
first reversal, and record the reversal intensity. -/
def stairStageReversal (reversal : Bool) (s : StairState) : StairState :=
  if reversal then
    let s : StairState := { s with
      reversalPoints := s.reversalPoints ++ [s.thisTrialN],
      initialRule := if s.reversalIntensities.length < 1 then 1 else s.initialRule }
    { s with reversalIntensities := s.reversalIntensities ++ [s.intensities.getLastD 0] }
  else s

/-- The `# test if we're done` block of `calculateNextIntensity`. -/
def stairStageFinished (s : StairState) : StairState :=
  if stairRevCriterion s && decide (s.nTrials ≤ s.intensities.length) then
    { s with finished := true }
  else s

/-- The `# new step size if necessary` block of `calculateNextIntensity`:
on a reversal with a list of step sizes, progress to the entry indexed by
the number of recorded reversals, holding at the last entry. -/
def stairStageStepSize (reversal : Bool) (s : StairState) : StairState :=
  if reversal && s.variableStep then
    if s.stepSizes.length ≤ s.reversalIntensities.length then
      { s with stepSizeCurrent := s.stepSizes.getLastD s.stepSizeCurrent }
    else
      { s with stepSizeCurrent := s.stepSizes.getD s.reversalIntensities.length s.stepSizeCurrent }
  else s

/-- The `# apply new step size` block of `calculateNextIntensity`: before
the first reversal, or on the trial that produced it (`initialRule == 1`),
the last response alone decides the direction; afterwards the run counter
against `nDown`/`nUp` decides. -/
def stairStageApply (pow10 : ℚ → ℚ) (s : StairState) : StairState :=
  if decide (s.reversalIntensities.length < 1) || decide (s.initialRule = 1) then
    let s : StairState := { s with initialRule := 0 }
    if s.data.getLastD 0 = 1 then stairIntensityDec pow10 s
    else stairIntensityInc pow10 s
  else if (s.nDown : ℤ) ≤ s.correctCounter then
    stairIntensityDec pow10 s
  else if s.correctCounter ≤ -(s.nUp : ℤ) then
    stairIntensityInc pow10 s
  else s

/-- `StairHandler.calculateNextIntensity`: reversal detection and
bookkeeping, completion test, step-size progression, and application of
the next step, in the source's statement order. -/
def stairCalculateNextIntensity (pow10 : ℚ → ℚ) (s : StairState) : StairState :=
  let rd := stairReversalAndDir s
  stairStageApply pow10
    (stairStageStepSize rd.1
      (stairStageFinished
        (stairStageReversal rd.1 { s with currentDirection := rd.2 })))

/-- `StairHandler.addResponse` with the default `intensity=None`: append
the response, update the signed run counter, and recompute the next
intensity. -/
def stairAddResponseCore (pow10 : ℚ → ℚ) (s : StairState) (result : ℕ) : StairState :=
  let onRun := s.data.getLast? = some result
  let cc : ℤ :=
    if result = 1 then
      if onRun then s.correctCounter + 1 else 1
    else
      if onRun then s.correctCounter - 1 else -1
  let s : StairState := { s with data := s.data ++ [result], correctCounter := cc }
  stairCalculateNextIntensity pow10 s

/-- `StairHandler.addResponse` with its optional `intensity` argument: a
supplied intensity replaces the last recorded one (`pop` of an empty
`intensities` list raises, modelled as `none`). -/
def stairAddResponse (pow10 : ℚ → ℚ) (s : StairState) (result : ℕ)
    (intensity? : Option ℚ) : Option StairState :=
  match intensity? with
  | none => some (stairAddResponseCore pow10 s result)
  | some i =>
      if s.intensities.isEmpty then none
      else
        some (stairAddResponseCore pow10
          { s with intensities := s.intensities.dropLast ++ [i] } result)

/-- `StairHandler.next`: when not finished, advance the trial counter,
record the recommended intensity and return it; when finished the source
raises `StopIteration`, modelled as `none`. -/
def stairNext (s : StairState) : Option (StairState × ℚ) :=
  if s.finished = false then
    let s : StairState := { s with
      thisTrialN := s.thisTrialN + 1,
      intensities := s.intensities ++ [s.nextIntensity] }
    some (s, s.nextIntensity)
  else none

/-- The `nReversals` computation of `StairHandler.__init__` together with
whether the warning `"Increasing number of minimum required reversals..."`
is emitted. -/
def stairEffectiveNReversals (stepSizes : List ℚ) (nRev? : Option ℕ) :
    Option ℕ × Bool :=
  match nRev? with
  | some n =>
      if n < stepSizes.length then (some stepSizes.length, true)
      else (some n, false)
  | none => (none, false)

/-- `StairHandler.__init__` (the algorithmic fields): an empty step-size
list raises at `self.stepSizes[0]`, modelled as `none`.  The second
component records whether the reversal-count warning was emitted. -/
def stairInit (startVal : ℚ) (nRev? : Option ℕ) (stepSizes : List ℚ)
    (nTrials : ℕ) (nUp nDown : ℕ) (stepType : StepType)
    (minVal maxVal : Option ℚ) : Option (StairState × Bool) :=
  match stepSizes with
  | [] => none
  | s0 :: rest =>
      let er := stairEffectiveNReversals (s0 :: rest) nRev?
      some ({ nUp := nUp
              nDown := nDown
              stepType := stepType
              stepSizes := s0 :: rest
              variableStep := decide (1 < (s0 :: rest).length)
              stepSizeCurrent := s0
              nReversals := er.1
              nTrials := nTrials
              finished := false
              thisTrialN := -1
              data := []
              intensities := []
              reversalPoints := []
              reversalIntensities := []
              currentDirection := .start
              correctCounter := 0
              nextIntensity := startVal
              minVal := minVal
              maxVal := maxVal
              initialRule := 0 }, er.2)

/-- Run a staircase: for each response, one `next()` / `addResponse(r)`
cycle. -/
def stairRun (pow10 : ℚ → ℚ) : StairState → List ℕ → Option StairState
  | s, [] => some s
  | s, r :: rs =>
      match stairNext s with
      | none => none
      | some (s1, _) =>
          match stairAddResponse pow10 s1 r none with
          | none => none
          | some s2 => stairRun pow10 s2 rs

/-! ### Spec-side step/clamp formulas (for the refinement statement of the
step application) -/

/-- Modelled from the spec's step table: the upward-stepped value
(`intensity + step`, `intensity × 10^step`, `intensity × 10^(step/20)`). -/
def specSteppedUp (pow10 : ℚ → ℚ) (s : StairState) : ℚ :=
  match s.stepType with
  | .db => s.nextIntensity * pow10 (s.stepSizeCurrent / 20)
  | .log => s.nextIntensity * pow10 s.stepSizeCurrent
  | .lin => s.nextIntensity + s.stepSizeCurrent

/-- Modelled from the spec's step table: the downward-stepped value. -/
def specSteppedDown (pow10 : ℚ → ℚ) (s : StairState) : ℚ :=
  match s.stepType with
  | .db => s.nextIntensity / pow10 (s.stepSizeCurrent / 20)
  | .log => s.nextIntensity / pow10 s.stepSizeCurrent
  | .lin => s.nextIntensity - s.stepSizeCurrent

/-- Clamping from above against an optional bound, written with `min`. -/
def specClampTop (m? : Option ℚ) (x : ℚ) : ℚ :=
  match m? with
  | some m => min x m
  | none => x

/-- Clamping from below against an optional bound, written with `max`. -/
def specClampBot (m? : Option ℚ) (x : ℚ) : ℚ :=
  match m? with
  | some m => max x m
  | none => x

/-! ### `TrialHandlerExt._createSequence` (weighted sequencing) -/

/-- `numpy.repeat(indices, weights, 0)` for `indices = [k, k+1, ...]`:
each condition index repeated by its weight, ascending from `k`. -/
def weightedFrom : ℕ → List ℕ → List ℕ
  | _, [] => []
  | k, w :: ws => List.replicate w k ++ weightedFrom (k + 1) ws

/-- The weighted single-repetition index block of
`TrialHandlerExt._createSequence`: condition `i` occupies `w[i]`
consecutive slots, ascending. -/
def weightedIndices (w : List ℕ) : List ℕ :=
  weightedFrom 0 w

/-- `method == 'sequential'` with `trialWeights`: the full sequence in the
order consumed by `next()` (trials within a repetition vary fastest), i.e.
the weighted block repeated `R` times. -/
def extSequentialSeq (w : List ℕ) (R : ℕ) : List ℕ :=
  (List.replicate R (weightedIndices w)).flatten

/-- `method == 'random'` with `trialWeights`: per repetition the weighted
block is shuffled (`shuffleArray`), modelled by an arbitrary per-repetition
rearrangement function `shuffle`. -/
def extRandomSeq (shuffle : ℕ → List ℕ → List ℕ) (w : List ℕ) (R : ℕ) : List ℕ :=
  (List.range R).flatMap fun r => shuffle r (weightedIndices w)

/-- `method == 'fullRandom'` with `trialWeights`: the sequential layout is
flattened and shuffled once, modelled by a rearrangement function
`shuffle0`. -/
def extFullRandomSeq (shuffle0 : List ℕ → List ℕ) (w : List ℕ) (R : ℕ) : List ℕ :=
  shuffle0 (extSequentialSeq w R)

/-! ### `TrialHandler` (plain sequencing) -/

/-- State of a `TrialHandler` restricted to the fields `next()` reads and
writes; a condition record is represented by its `ori` value. -/
structure THState where
  trialList : List ℕ
  nReps : ℕ
  sequenceIndices : List (List ℕ)
  thisTrialN : ℤ
  thisRepN : ℕ
  thisN : ℤ
  nRemaining : ℤ
  finished : Bool
deriving DecidableEq, Repr

/-- `TrialHandler._createSequence` for `method == 'sequential'`:
`numpy.repeat(indices, nReps, 1)`, i.e. row `i` is index `i` repeated
`nReps` times, so that `sequenceIndices[trial][rep]` is the trial's
condition index. -/
def thSequentialIndices (n R : ℕ) : List (List ℕ) :=
  (List.range n).map fun i => List.replicate R i

/-- `TrialHandler.__init__` for sequential method (the fields used by
`next()`). -/
def thInit (trialList : List ℕ) (nReps : ℕ) : THState :=
  { trialList := trialList
    nReps := nReps
    sequenceIndices := thSequentialIndices trialList.length nReps
    thisTrialN := -1
    thisRepN := 0
    thisN := -1
    nRemaining := trialList.length * nReps
    finished := false }

/-- `TrialHandler.next`: advance the trial pointer, roll over to a new
repetition at the end of the condition list, finish after the last
repetition (`StopIteration`, modelled as `none`), otherwise return the
condition (its `ori` value) fetched through `sequenceIndices`. -/
def thNext (s : THState) : Option (THState × ℕ) :=
  let tn := s.thisTrialN + 1
  let N := s.thisN + 1
  let rem := s.nRemaining - 1
  let tr : ℤ × ℕ :=
    if tn = (s.trialList.length : ℤ) then (0, s.thisRepN + 1) else (tn, s.thisRepN)
  let finished := s.finished || decide (s.nReps ≤ tr.2)
  if finished then none
  else
    let idx := (s.sequenceIndices.getD tr.1.toNat []).getD tr.2 0
    some ({ s with
              thisTrialN := tr.1
              thisRepN := tr.2
              thisN := N
              nRemaining := rem
              finished := finished },
          s.trialList.getD idx 0)

/-- Repeatedly call `TrialHandler.next`, collecting the returned `ori`
values; the Bool records whether a call raised `StopIteration`. -/
def thRunCalls : ℕ → THState → List ℕ × Bool
  | 0, _ => ([], false)
  | k + 1, s =>
      match thNext s with
      | none => ([], true)
      | some (s1, v) =>
          let r := thRunCalls k s1
          (v :: r.1, r.2)

/-! ### `MultiStairHandler` (interleaved staircases) -/

/-- Scheduler state of a `MultiStairHandler` over abstract member
staircases (identified by naturals): the running set, the per-pass queue
`thisPassRemaining`, the current staircase, and — as observable history —
the set of staircases whose completion criterion has fired. -/
structure MultiState where
  running : List ℕ
  remaining : List ℕ
  current : ℕ
  finishedStairs : List ℕ
deriving DecidableEq, Repr

/-- `MultiStairHandler.next` (scheduling part): when the pass queue is
exhausted, `_startNewPass` copies (and for `method='random'` shuffles —
the `shuf` argument) the running set; if no staircase is running,
`StopIteration` (`none`).  Then the head of the queue is popped and
becomes the current staircase. -/
def multiNext (shuf : List ℕ → List ℕ) (s : MultiState) : Option MultiState :=
  if s.remaining.isEmpty then
    if s.running.isEmpty then none
    else
      match shuf s.running with
      | [] => none
      | c :: rest => some { s with remaining := rest, current := c }
  else
    match s.remaining with
    | [] => none
    | c :: rest => some { s with remaining := rest, current := c }

/-- `MultiStairHandler.addResponse` (scheduling part): whether the
response finishes the current staircase is abstracted as the Bool
`finishes`; a finished staircase is removed from the running set. -/
def multiAddResponse (finishes : Bool) (s : MultiState) : MultiState :=
  if finishes then
    { s with
      running := s.running.erase s.current,
      finishedStairs := s.current :: s.finishedStairs }
  else s

/-- One `next()` / `addResponse` cycle of a `MultiStairHandler`. -/
def multiStep (shuf : List ℕ → List ℕ) (finishes : Bool) (s : MultiState) :
    Option MultiState :=
  (multiNext shuf s).map (multiAddResponse finishes)

/-- A run of `next()` / `addResponse` cycles; `shuf k` is the shuffle used
if the `k`-th cycle starts a new pass.  Returns the final state and the
log of staircases selected by `next()`, in order. -/
def multiRun (shuf : ℕ → List ℕ → List ℕ) :
    ℕ → List Bool → MultiState → Option (MultiState × List ℕ)
  | _, [], s => some (s, [])
  | k, b :: bs, s =>
      match multiStep (shuf k) b s with
      | none => none
      | some t =>
          match multiRun shuf (k + 1) bs t with
          | none => none
          | some (s', log) => some (s', t.current :: log)

/-- Scheduler invariant of `MultiStairHandler`: the running staircases are
distinct, the pass queue holds distinct running staircases, and no
staircase whose completion criterion has fired is running or queued. -/
def MultiInv (s : MultiState) : Prop :=
  s.running.Nodup ∧ s.remaining.Nodup ∧
    (∀ x ∈ s.remaining, x ∈ s.running) ∧
    (∀ f ∈ s.finishedStairs, f ∉ s.running ∧ f ∉ s.remaining)

/-! ### `DataHandler` (tabular data store) -/

/-- A Python value held by a `DataHandler` cell: a numeric scalar
(`float`/`int`), a string, or a (1-D) `numpy.ndarray`. -/
inductive PyVal where
  | num (q : ℚ)
  | str (s : String)
  | arr (l : List ℚ)
deriving DecidableEq, Repr

/-- `type(value) == numpy.ndarray and len(value) > 1`. -/
def pyIsLongArray : PyVal → Bool
  | .arr l => decide (1 < l.length)
  | _ => false

/-- `type(value) in [float, int]`. -/
def pyIsFloatOrInt : PyVal → Bool
  | .num _ => true
  | _ => false

/-- The promotion trigger in `DataHandler.add`:
`(type(value) == ndarray and len(value) > 1) or (type(value) not in [float, int])`. -/
def dhTriggers (v : PyVal) : Bool :=
  pyIsLongArray v || !pyIsFloatOrInt v

/-- A key's array in a `DataHandler`: either the initial masked numeric
array (per cell: mask flag and float data, `numpy.ma.zeros` with
`mask=True`), or the promoted generic object array. -/
inductive ColArray where
  | numeric (cells : List (Bool × ℚ))
  | object (cells : List PyVal)
deriving DecidableEq, Repr

/-- `DataHandler._convertToObjectArray`: masked cells become the
placeholder `"--"`, unmasked cells keep their data
(`numpy.where(dat.mask, '--', dat)`). -/
def dhConvertToObjectArray (cells : List (Bool × ℚ)) : List PyVal :=
  cells.map fun c => if c.1 then .str "--" else .num c.2

/-- `DataHandler.add` on a key whose array is still numeric (`isNumeric`),
at flat position `p`: a value that fires the promotion trigger first
converts the whole array, then the value is inserted; a numeric scalar is
inserted into the masked array (unmasking the cell). -/
def dhAddNumeric (cells : List (Bool × ℚ)) (p : ℕ) (v : PyVal) : ColArray :=
  if dhTriggers v then
    .object ((dhConvertToObjectArray cells).set p v)
  else
    match v with
    | .num q => .numeric (cells.set p (false, q))
    | _ => .numeric cells

/-! ### `PsiHandler` -/

/-- The error message of the `expectedMin` check in `PsiHandler.__init__`. -/
def psiExpectedMinError : String :=
  "Currently, only Yes/No and 2-AFC designs are supported. Please specify either expectedMin=0 (Yes/No) or expectedMin=0.5 (2-AFC)."

/-- `PsiHandler.__init__` (the `expectedMin` validation): raises
`NotImplementedError` unless `expectedMin in [0, 0.5]`; otherwise the
handler is built with `twoAFC = (expectedMin == 0.5)`. -/
def psiHandlerInit (expectedMin : ℚ) : Except String Bool :=
  if expectedMin ∈ ([0, 1/2] : List ℚ) then
    .ok (decide (expectedMin = 1/2))
  else
    .error psiExpectedMinError

/-! ### `QuestHandler` -/

/-- State of a `QuestHandler` restricted to what `addResponse` touches.
The QUEST posterior (`QuestObject`, from `psychopy.contrib.quest`, outside
the verified sources) is represented by the log of its `update(intensity,
result)` calls. -/
structure QuestState where
  intensities : List ℚ
  data : List ℕ
  questUpdates : List (ℚ × ℕ)
  questNextIntensity : ℚ
  finished : Bool
deriving DecidableEq, Repr

/-- `QuestHandler.addResponse`: an explicitly supplied intensity replaces
the last recorded one, except that the `pop` is skipped when no intensity
has been recorded yet; the posterior is then updated with the used
intensity.  `list.pop()` on an empty list raises (`none`); the guard makes
that unreachable.  The trailing `_checkFinished` /
`calculateNextIntensity` calls only touch `finished` /
`questNextIntensity` via the posterior and are applied afterwards by the
caller in the source; they are omitted here as they do not read the fields
this model tracks beyond the update log. -/
def questAddResponse (s : QuestState) (result : ℕ) (intensity? : Option ℚ) :
    Option QuestState :=
  match intensity? with
  | none =>
      let i := s.questNextIntensity
      some { s with
               questUpdates := s.questUpdates ++ [(i, result)],
               data := s.data ++ [result] }
  | some i =>
      let popped : Option (List ℚ) :=
        if s.intensities.length ≠ 0 then
          if s.intensities.isEmpty then none else some s.intensities.dropLast
        else some s.intensities
      match popped with
      | none => none
      | some ints =>
          some { s with
                   intensities := ints ++ [i],
                   questUpdates := s.questUpdates ++ [(i, result)],
                   data := s.data ++ [result] }

/-! ### Concrete instances used by the closed theorems and witnesses -/

/-- The staircase of the worked `[1,1,1,0,0,0]` scenario: linear steps of
size 1, no clamp, `nUp = nDown = 1`, start value 10 (`pow10` is unused in
the linear domain); run on the first `k` of the six responses. -/
def stair111000Run (k : ℕ) : Option StairState :=
  match stairInit 10 (some 20) [1] 10 1 1 .lin none none with
  | some p => stairRun (fun _ => 1) p.1 (List.take k [1, 1, 1, 0, 0, 0])
  | none => none

/-- A concrete mid-run staircase state (linear, `nReversals = 1`,
`nTrials = 1`, one correct response recorded). -/
def stairDemoState : StairState :=
  { nUp := 1, nDown := 1, stepType := .lin, stepSizes := [1],
    variableStep := false, stepSizeCurrent := 1, nReversals := some 1,
    nTrials := 1, finished := false, thisTrialN := 0, data := [1],
    intensities := [5], reversalPoints := [], reversalIntensities := [],
    currentDirection := .down, correctCounter := 1, nextIntensity := 4,
    minVal := none, maxVal := none, initialRule := 0 }

/-- A concrete staircase state with bounds `minVal = 5`, `maxVal = 10`,
intensity 6 (inside the bounds) and a negative linear step size of `-2`. -/
def stairNegStepState : StairState :=
  { nUp := 1, nDown := 3, stepType := .lin, stepSizes := [-2],
    variableStep := false, stepSizeCurrent := -2, nReversals := some 2,
    nTrials := 10, finished := false, thisTrialN := 0, data := [1],
    intensities := [6], reversalPoints := [], reversalIntensities := [],
    currentDirection := .down, correctCounter := 1, nextIntensity := 6,
    minVal := some 5, maxVal := some 10, initialRule := 0 }

/-- A concrete multi-staircase scheduler state: staircases 0 and 1 are
running, 0 is queued for this pass, and staircase 2 has already finished. -/
def multiDemoState : MultiState :=
  { running := [0, 1], remaining := [0], current := 0, finishedStairs := [2] }

/-- A fresh `QuestHandler` state: nothing recorded yet, recommended start
intensity 3. -/
def questDemoState : QuestState :=
  { intensities := [], data := [], questUpdates := [],
    questNextIntensity := 3, finished := false }

/-! ## Field bookkeeping lemmas for the staircase stages -/

lemma stairIntensityInc_finished (p : ℚ → ℚ) (s : StairState) :
    (stairIntensityInc p s).finished = s.finished := rfl

lemma stairIntensityDec_finished (p : ℚ → ℚ) (s : StairState) :
    (stairIntensityDec p s).finished = s.finished := rfl

lemma stairStageApply_finished (p : ℚ → ℚ) (s : StairState) :
    (stairStageApply p s).finished = s.finished := by
  unfold stairStageApply
  split_ifs <;> first | rfl | (dsimp only; split_ifs <;> rfl)

lemma stairStageApply_revInt (p : ℚ → ℚ) (s : StairState) :
    (stairStageApply p s).reversalIntensities = s.reversalIntensities := by
  unfold stairStageApply
  split_ifs <;> first | rfl | (dsimp only; split_ifs <;> rfl)

lemma stairStageStepSize_finished (b : Bool) (s : StairState) :
    (stairStageStepSize b s).finished = s.finished := by
  unfold stairStageStepSize
  split_ifs <;> rfl

lemma stairStageStepSize_revInt (b : Bool) (s : StairState) :
    (stairStageStepSize b s).reversalIntensities = s.reversalIntensities := by
  unfold stairStageStepSize
  split_ifs <;> rfl

lemma stairStageFinished_finished (s : StairState) :
    (stairStageFinished s).finished =
      (s.finished ||
        (stairRevCriterion s && decide (s.nTrials ≤ s.intensities.length))) := by
  unfold stairStageFinished
  split_ifs with h <;> simp [h]

lemma stairStageFinished_revInt (s : StairState) :
    (stairStageFinished s).reversalIntensities = s.reversalIntensities := by
  unfold stairStageFinished
  split_ifs <;> rfl

lemma stairStageReversal_finished (b : Bool) (s : StairState) :
    (stairStageReversal b s).finished = s.finished := by
  unfold stairStageReversal
  split_ifs <;> rfl

lemma stairStageReversal_ints (b : Bool) (s : StairState) :
    (stairStageReversal b s).intensities = s.intensities := by
  unfold stairStageReversal
  split_ifs <;> rfl

lemma stairStageReversal_nRev (b : Bool) (s : StairState) :
    (stairStageReversal b s).nReversals = s.nReversals := by
  unfold stairStageReversal
  split_ifs <;> rfl

lemma stairStageReversal_nTrials (b : Bool) (s : StairState) :
    (stairStageReversal b s).nTrials = s.nTrials := by
  unfold stairStageReversal
  split_ifs <;> rfl

/-- The completion update of one `calculateNextIntensity` call, as a
boolean equation: the flag stays set once set, and is newly set exactly
when the (post-bookkeeping) reversal count and the trial count meet their
configured minima. -/
lemma stairCalc_finished_eq (p : ℚ → ℚ) (s : StairState) (nr : ℕ)
    (h : s.nReversals = some nr) :
    (stairCalculateNextIntensity p s).finished =
      (s.finished ||
        (decide (nr ≤ (stairCalculateNextIntensity p s).reversalIntensities.length) &&
         decide (s.nTrials ≤ s.intensities.length))) := by
  unfold stairCalculateNextIntensity
  rw [stairStageApply_finished, stairStageStepSize_finished,
    stairStageFinished_finished, stairStageReversal_finished,
    stairStageApply_revInt, stairStageStepSize_revInt, stairStageFinished_revInt]
  have hcrit :
      stairRevCriterion
          (stairStageReversal (stairReversalAndDir s).1
            { s with currentDirection := (stairReversalAndDir s).2 }) =
        decide (nr ≤
          (stairStageReversal (stairReversalAndDir s).1
            { s with currentDirection := (stairReversalAndDir s).2 }).reversalIntensities.length) := by
    unfold stairRevCriterion
    rw [stairStageReversal_nRev]
    simp [h]
  rw [hcrit, stairStageReversal_ints, stairStageReversal_nTrials]

/-! ## C2: completion requires both minima -/

/-- C2: for every staircase state with a configured minimum reversal count
`nr` and every response, `finished` after `addResponse` is set exactly when
it was already set or both the recorded reversal count has reached `nr` and
the recorded trial count has reached `nTrials`; in particular, while either
minimum is unmet it stays `false`. -/
theorem stairHandler_finished_requires_both_minima
    (pow10 : ℚ → ℚ) (s : StairState) (r : ℕ) (nr : ℕ)
    (h : s.nReversals = some nr) :
    (stairAddResponseCore pow10 s r).finished =
      (s.finished ||
        (decide (nr ≤ (stairAddResponseCore pow10 s r).reversalIntensities.length) &&
         decide (s.nTrials ≤ s.intensities.length))) := by
  unfold stairAddResponseCore
  dsimp only
  exact stairCalc_finished_eq pow10 _ nr h

/-- Witness for C2 at a concrete state and response. -/
theorem stairHandler_finished_requires_both_minima_witness :
    (stairAddResponseCore (fun _ => 1) stairDemoState 1).finished =
      (stairDemoState.finished ||
        (decide (1 ≤ (stairAddResponseCore (fun _ => 1) stairDemoState 1).reversalIntensities.length) &&
         decide (stairDemoState.nTrials ≤ stairDemoState.intensities.length))) :=
  stairHandler_finished_requires_both_minima (fun _ => 1) stairDemoState 1 1 rfl

/-! ## C1: the `[1,1,1,0,0,0]` scenario -/

/-- C1 (counterexample): the `[1,1,1,0,0,0]` run with `nUp = nDown = 1`,
linear steps and no clamp does NOT record two reversals. -/
theorem stair111000_not_two_reversals :
    ¬ ((stair111000Run 6).map (fun s => s.reversalIntensities.length) = some 2) := by
  decide

/-- C1 (amended): the `[1,1,1,0,0,0]` run records exactly one reversal, at
trial index 3 (the first `0` after the three `1`s); no reversal is recorded
after the first three responses, and the reversal is already recorded after
four, i.e. it arises while the reversal list is still empty — the phase in
which the implicit 1-up/1-down rule is in force. -/
theorem stair111000_single_reversal :
    (stair111000Run 6).map (fun s => s.reversalIntensities.length) = some 1 ∧
    (stair111000Run 6).map (fun s => s.reversalPoints) = some [3] ∧
    (stair111000Run 3).map (fun s => s.reversalIntensities.length) = some 0 ∧
    (stair111000Run 4).map (fun s => s.reversalIntensities.length) = some 1 := by
  refine ⟨by decide, by decide, by decide, by decide⟩

/-! ## C4: step application and clamping -/

lemma if_lt_eq_min (m x : ℚ) : (if m < x then m else x) = min x m := by
  rcases le_or_lt x m with h | h
  · rw [if_neg (not_lt.mpr h), min_eq_left h]
  · rw [if_pos h, min_eq_right h.le]

lemma if_lt_eq_max (m x : ℚ) : (if x < m then m else x) = max x m := by
  rcases le_or_lt m x with h | h
  · rw [if_neg (not_lt.mpr h), max_eq_left h]
  · rw [if_pos h, max_eq_right h.le]

/-- C4 (counterexample): from intensity 6, inside the configured bounds
`[5, 10]`, an upward linear step of size `-2` yields 4, which is NOT
clamped into the configured `[minVal, maxVal]` bounds —
`_intensityInc` only clamps against `maxVal`, never against `minVal`. -/
theorem stairStep_result_not_within_bounds :
    (stairIntensityInc (fun _ => 1) stairNegStepState).nextIntensity = 4 ∧
    stairNegStepState.minVal = some 5 ∧ stairNegStepState.maxVal = some 10 ∧
    (5 ≤ (6 : ℚ) ∧ (6 : ℚ) ≤ 10) ∧ stairNegStepState.nextIntensity = 6 ∧
    ¬ (5 ≤ (4 : ℚ) ∧ (4 : ℚ) ≤ 10) := by
  refine ⟨?_, rfl, rfl, by decide, rfl, by decide⟩
  unfold stairIntensityInc stairNegStepState
  norm_num

/-- C4 (amended): each step changes the intensity by exactly the current
step size in the configured domain (linear: `±step`; logarithmic:
`×/÷ 10^step`; decibel: `×/÷ 10^(step/20)`), and the result is then
clamped one-sidedly: an upward step against `maxVal` only, a downward step
against `minVal` only (each when set); the run counter is reset. -/
theorem stairStep_domain_and_one_sided_clamp (pow10 : ℚ → ℚ) (s : StairState) :
    (stairIntensityInc pow10 s).nextIntensity =
        specClampTop s.maxVal (specSteppedUp pow10 s) ∧
    (stairIntensityDec pow10 s).nextIntensity =
        specClampBot s.minVal (specSteppedDown pow10 s) ∧
    (stairIntensityInc pow10 s).correctCounter = 0 ∧
    (stairIntensityDec pow10 s).correctCounter = 0 := by
  refine ⟨?_, ?_, rfl, rfl⟩
  · unfold stairIntensityInc specClampTop specSteppedUp
    rcases s.maxVal with _ | m
    · rfl
    · dsimp only
      exact if_lt_eq_min m _
  · unfold stairIntensityDec specClampBot specSteppedDown
    rcases s.minVal with _ | m
    · rfl
    · dsimp only
      exact if_lt_eq_max m _

/-! ## C5: sequential TrialHandler scenario -/

/-- C5: with conditions `{ori:0}`, `{ori:90}`, three repetitions and
sequential ordering, six `next()` calls return `ori` values
`0, 90, 0, 90, 0, 90` and the seventh call raises `StopIteration`. -/
theorem trialHandler_sequential_ori_order :
    thRunCalls 7 (thInit [0, 90] 3) = ([0, 90, 0, 90, 0, 90], true) := by
  decide

/-! ## C6: step-size list longer than the reversal minimum -/

/-- C6: constructing a staircase with more step-size entries than the
configured minimum reversal count raises the effective minimum to the
number of entries and emits the warning (second component `true`). -/
theorem stairInit_raises_min_reversals (startVal s0 : ℚ) (rest : List ℚ)
    (n nTrials nUp nDown : ℕ) (st : StepType) (mn mx : Option ℚ)
    (h : n < (s0 :: rest).length) :
    ∃ s, stairInit startVal (some n) (s0 :: rest) nTrials nUp nDown st mn mx
          = some (s, true) ∧
        s.nReversals = some (s0 :: rest).length := by
  unfold stairInit stairEffectiveNReversals
  dsimp only
  rw [if_pos h]
  exact ⟨_, rfl, rfl⟩

/-- Witness for C6: two step sizes against a configured minimum of one. -/
theorem stairInit_raises_min_reversals_witness :
    ∃ s, stairInit 0 (some 1) [1, 2] 5 1 3 .lin none none = some (s, true) ∧
        s.nReversals = some 2 :=
  stairInit_raises_min_reversals 0 1 [2] 1 5 1 3 .lin none none (by decide)

/-! ## C3: weighted sequence multiplicities and sequential order -/

lemma count_weightedFrom (i k : ℕ) (w : List ℕ) :
    (weightedFrom k w).count i = if k ≤ i then w.getD (i - k) 0 else 0 := by
  induction w generalizing k with
  | nil => simp [weightedFrom]
  | cons a ws ih =>
      rw [weightedFrom, List.count_append, List.count_replicate, ih (k + 1)]
      by_cases h1 : k ≤ i
      · rcases Nat.eq_or_lt_of_le h1 with he | hl
        · subst he
          simp [Nat.sub_self]
        · have h2 : k + 1 ≤ i := hl
          have h3 : (k == i) = false := by simp; omega
          have h4 : i - k = (i - (k + 1)) + 1 := by omega
          rw [if_pos h1, if_pos h2, h3, h4, List.getD_cons_succ]
          simp
      · have h2 : ¬ (k + 1 ≤ i) := by omega
        have h3 : (k == i) = false := by simp; omega
        simp [h1, h2, h3]

lemma count_weightedIndices (i : ℕ) (w : List ℕ) :
    (weightedIndices w).count i = w.getD i 0 := by
  unfold weightedIndices
  rw [count_weightedFrom]
  simp

lemma count_extSequential (w : List ℕ) (R i : ℕ) :
    (extSequentialSeq w R).count i = w.getD i 0 * R := by
  unfold extSequentialSeq
  rw [List.count_flatten, List.map_replicate, List.sum_replicate, count_weightedIndices]
  simp [mul_comm]

lemma count_perm_reps (base : List ℕ) (shuffle : ℕ → List ℕ → List ℕ)
    (hsh : ∀ r l, (shuffle r l).Perm l) (rs : List ℕ) (i : ℕ) :
    (rs.flatMap fun r => shuffle r base).count i = rs.length * base.count i := by
  induction rs with
  | nil => simp
  | cons r rs ih =>
      rw [List.flatMap_cons, List.count_append, ih, ((hsh r base).count_eq i),
        List.length_cons, Nat.succ_mul, Nat.add_comm]

lemma count_extRandom (shuffle : ℕ → List ℕ → List ℕ)
    (hsh : ∀ r l, (shuffle r l).Perm l) (w : List ℕ) (R i : ℕ) :
    (extRandomSeq shuffle w R).count i = w.getD i 0 * R := by
  unfold extRandomSeq
  rw [count_perm_reps _ _ hsh, List.length_range, count_weightedIndices, mul_comm]

lemma count_extFullRandom (shuffle0 : List ℕ → List ℕ)
    (hsh0 : ∀ l, (shuffle0 l).Perm l) (w : List ℕ) (R i : ℕ) :
    (extFullRandomSeq shuffle0 w R).count i = w.getD i 0 * R := by
  unfold extFullRandomSeq
  rw [((hsh0 _).count_eq i), count_extSequential]

lemma le_of_mem_weightedFrom (k x : ℕ) (w : List ℕ)
    (h : x ∈ weightedFrom k w) : k ≤ x := by
  induction w generalizing k with
  | nil => simp [weightedFrom] at h
  | cons a ws ih =>
      rw [weightedFrom] at h
      rcases List.mem_append.mp h with h | h
      · rw [List.eq_of_mem_replicate h]
      · exact Nat.le_of_succ_le (ih (k + 1) h)

lemma sorted_weightedFrom (k : ℕ) (w : List ℕ) :
    (weightedFrom k w).Sorted (fun a b => a ≤ b) := by
  induction w generalizing k with
  | nil => simp [weightedFrom]
  | cons a ws ih =>
      rw [weightedFrom]
      refine List.pairwise_append.mpr ⟨?_, ih (k + 1), ?_⟩
      · exact List.pairwise_replicate.mpr (Or.inr le_rfl)
      · intro x hx y hy
        rw [List.eq_of_mem_replicate hx]
        exact Nat.le_of_succ_le (le_of_mem_weightedFrom (k + 1) y ws hy)

/-- C3: for every weight vector, repetition count and condition index, and
for every sequencing method (sequential / random / fullRandom, the random
rearrangements being arbitrary permutations), the generated sequence holds
condition `i` exactly `weight[i] × R` times; moreover the sequential
sequence is the per-repetition weighted block repeated `R` times, and that
block is ascending with condition `i` occupying `weight[i]` slots. -/
theorem extCreateSequence_weighted_counts
    (w : List ℕ) (R i : ℕ)
    (shuffle : ℕ → List ℕ → List ℕ) (hsh : ∀ r l, (shuffle r l).Perm l)
    (shuffle0 : List ℕ → List ℕ) (hsh0 : ∀ l, (shuffle0 l).Perm l) :
    (extSequentialSeq w R).count i = w.getD i 0 * R ∧
    (extRandomSeq shuffle w R).count i = w.getD i 0 * R ∧
    (extFullRandomSeq shuffle0 w R).count i = w.getD i 0 * R ∧
    extSequentialSeq w R = (List.replicate R (weightedIndices w)).flatten ∧
    (weightedIndices w).Sorted (fun a b => a ≤ b) ∧
    (weightedIndices w).count i = w.getD i 0 :=
  ⟨count_extSequential w R i, count_extRandom shuffle hsh w R i,
   count_extFullRandom shuffle0 hsh0 w R i, rfl,
   sorted_weightedFrom 0 w, count_weightedIndices i w⟩

/-- Witness for C3: weights `[2, 1]`, two repetitions, condition 0, with
`reverse` as the concrete permutation. -/
theorem extCreateSequence_weighted_counts_witness :
    (extSequentialSeq [2, 1] 2).count 0 = [2, 1].getD 0 0 * 2 ∧
    (extRandomSeq (fun _ l => l.reverse) [2, 1] 2).count 0 = [2, 1].getD 0 0 * 2 ∧
    (extFullRandomSeq List.reverse [2, 1] 2).count 0 = [2, 1].getD 0 0 * 2 ∧
    extSequentialSeq [2, 1] 2 = (List.replicate 2 (weightedIndices [2, 1])).flatten ∧
    (weightedIndices [2, 1]).Sorted (fun a b => a ≤ b) ∧
    (weightedIndices [2, 1]).count 0 = [2, 1].getD 0 0 :=
  extCreateSequence_weighted_counts [2, 1] 2 0 (fun _ l => l.reverse)
    (fun _ l => List.reverse_perm l) List.reverse (fun l => List.reverse_perm l)

/-! ## C7: finished staircases leave the rotation -/

lemma multiNext_facts (sigma : List ℕ → List ℕ) (hsig : ∀ l, (sigma l).Perm l)
    (s u : MultiState) (hs : MultiInv s) (h : multiNext sigma s = some u) :
    ∃ c rest, u = { s with remaining := rest, current := c } ∧
      c ∈ s.running ∧ c ∉ s.finishedStairs ∧ rest.Nodup ∧ c ∉ rest ∧
      (∀ x ∈ rest, x ∈ s.running) ∧ (∀ f ∈ s.finishedStairs, f ∉ rest) := by
  obtain ⟨h1, h2, h3, h4⟩ := hs
  unfold multiNext at h
  by_cases hre : s.remaining.isEmpty
  · rw [if_pos hre] at h
    by_cases hru : s.running.isEmpty
    · rw [if_pos hru] at h
      exact absurd h (by simp)
    · rw [if_neg hru] at h
      cases hsr : sigma s.running with
      | nil =>
          rw [hsr] at h
          exact absurd h (by simp)
      | cons c rest =>
          rw [hsr] at h
          have hperm : (c :: rest).Perm s.running := hsr ▸ hsig s.running
          have hnd : (c :: rest).Nodup := (hperm.nodup_iff).mpr h1
          have hmem : ∀ x ∈ c :: rest, x ∈ s.running := fun x hx => (hperm.mem_iff).mp hx
          refine ⟨c, rest, ?_, hmem c (by simp), ?_, ?_, ?_, ?_, ?_⟩
          · exact (Option.some_injective _ h).symm
          · intro hc
            exact (h4 c hc).1 (hmem c (by simp))
          · exact (List.nodup_cons.mp hnd).2
          · exact (List.nodup_cons.mp hnd).1
          · exact fun x hx => hmem x (by simp [hx])
          · intro f hf hfr
            exact (h4 f hf).1 (hmem f (by simp [hfr]))
  · rw [if_neg hre] at h
    cases hrem : s.remaining with
    | nil => rw [hrem] at hre; simp at hre
    | cons c rest =>
        rw [hrem] at h
        have hnd : (c :: rest).Nodup := hrem ▸ h2
        have hcin : c ∈ s.running := h3 c (by simp [hrem])
        refine ⟨c, rest, (Option.some_injective _ h).symm, hcin, ?_, ?_, ?_, ?_, ?_⟩
        · intro hc
          exact (h4 c hc).2 (by simp [hrem])
        · exact (List.nodup_cons.mp hnd).2
        · exact (List.nodup_cons.mp hnd).1
        · exact fun x hx => h3 x (by simp [hrem, hx])
        · intro f hf hfr
          exact (h4 f hf).2 (by simp [hrem, hfr])

lemma multiStep_inv (sigma : List ℕ → List ℕ) (hsig : ∀ l, (sigma l).Perm l)
    (b : Bool) (s t : MultiState) (hs : MultiInv s)
    (h : multiStep sigma b s = some t) :
    MultiInv t ∧ t.current ∉ s.finishedStairs ∧
      s.finishedStairs ⊆ t.finishedStairs := by
  obtain ⟨h1, h2, h3, h4⟩ := hs
  unfold multiStep at h
  cases hn : multiNext sigma s with
  | none => rw [hn] at h; exact absurd h (by simp)
  | some u =>
      rw [hn] at h
      obtain ⟨c, rest, hu, hcrun, hcfin, hrnd, hcr, hrsub, hrfin⟩ :=
        multiNext_facts sigma hsig s u ⟨h1, h2, h3, h4⟩ hn
      have ht : t = multiAddResponse b u := by
        simpa using h.symm
      subst ht hu
      unfold multiAddResponse
      dsimp only
      by_cases hb : b = true
      · rw [if_pos hb]
        refine ⟨⟨List.Nodup.erase c h1, hrnd, ?_, ?_⟩, ?_, ?_⟩
        · intro x hx
          exact (List.Nodup.mem_erase_iff h1).mpr ⟨fun he => hcr (he ▸ hx), hrsub x hx⟩
        · intro f hf
          rcases List.mem_cons.mp hf with hf | hf
          · subst hf
            constructor
            · intro hc
              exact ((List.Nodup.mem_erase_iff h1).mp hc).1 rfl
            · exact hcr
          · exact ⟨fun hc => (h4 f hf).1 (List.mem_of_mem_erase hc), hrfin f hf⟩
        · exact hcfin
        · exact fun f hf => List.mem_cons_of_mem c hf
      · rw [if_neg hb]
        refine ⟨⟨h1, hrnd, hrsub, fun f hf => ⟨(h4 f hf).1, hrfin f hf⟩⟩, hcfin,
          fun f hf => hf⟩


/-- C7: over any run of `next()` / `addResponse` cycles from a state
satisfying the scheduler invariant, the invariant is preserved, the set of
finished staircases only grows, and a staircase that had already finished
is neither running nor queued at the end and is never selected by `next()`
during the run; by `multiStep_inv`, a staircase finishing during
`addResponse` is removed from the running set at that step. -/
theorem multiStair_finished_never_reselected
    (shuf : ℕ → List ℕ → List ℕ) (hshuf : ∀ k l, (shuf k l).Perm l)
    (k : ℕ) (bs : List Bool) (s : MultiState) (hs : MultiInv s)
    (s' : MultiState) (log : List ℕ)
    (hrun : multiRun shuf k bs s = some (s', log)) :
    MultiInv s' ∧ s.finishedStairs ⊆ s'.finishedStairs ∧
      ∀ f ∈ s.finishedStairs, f ∉ s'.running ∧ f ∉ s'.remaining ∧ f ∉ log := by
  induction bs generalizing k s s' log with
  | nil =>
      unfold multiRun at hrun
      have hp : s = s' ∧ ([] : List ℕ) = log := by
        have := Option.some_injective _ hrun
        exact ⟨congrArg Prod.fst this, congrArg Prod.snd this⟩
      obtain ⟨hA, hB⟩ := hp
      subst hA
      subst hB
      exact ⟨hs, fun f hf => hf,
        fun f hf => ⟨(hs.2.2.2 f hf).1, (hs.2.2.2 f hf).2, by simp⟩⟩
  | cons b bs ih =>
      unfold multiRun at hrun
      cases hstep : multiStep (shuf k) b s with
      | none =>
          rw [hstep] at hrun
          exact absurd hrun (by simp)
      | some t =>
          rw [hstep] at hrun
          dsimp only at hrun
          cases hrec : multiRun shuf (k + 1) bs t with
          | none =>
              rw [hrec] at hrun
              exact absurd hrun (by simp)
          | some p =>
              obtain ⟨s2, log2⟩ := p
              rw [hrec] at hrun
              dsimp only at hrun
              have hp := Option.some_injective _ hrun
              have hA : s2 = s' := congrArg Prod.fst hp
              have hB : t.current :: log2 = log := congrArg Prod.snd hp
              subst hA
              subst hB
              obtain ⟨hInvT, hcur, hsub⟩ := multiStep_inv (shuf k) (hshuf k) b s t hs hstep
              obtain ⟨hInv2, hsub2, hexc⟩ := ih (k + 1) t hInvT s2 log2 hrec
              refine ⟨hInv2, fun f hf => hsub2 (hsub hf), ?_⟩
              intro f hf
              obtain ⟨hr, hrem, hlog⟩ := hexc f (hsub hf)
              refine ⟨hr, hrem, ?_⟩
              intro hmem
              rcases List.mem_cons.mp hmem with h | h
              · exact hcur (h ▸ hf)
              · exact hlog h


/-- Witness for C7: staircases 0 and 1 running, staircase 2 already
finished; one cycle that finishes staircase 0. -/
theorem multiStair_finished_never_reselected_witness :
    MultiInv { running := [1], remaining := [], current := 0, finishedStairs := [0, 2] } ∧
    multiDemoState.finishedStairs ⊆
      MultiState.finishedStairs
        { running := [1], remaining := [], current := 0, finishedStairs := [0, 2] } ∧
    ∀ f ∈ multiDemoState.finishedStairs,
      f ∉ MultiState.running
            { running := [1], remaining := [], current := 0, finishedStairs := [0, 2] } ∧
      f ∉ MultiState.remaining
            { running := [1], remaining := [], current := 0, finishedStairs := [0, 2] } ∧
      f ∉ [0] :=
  multiStair_finished_never_reselected (fun _ l => l) (fun _ l => List.Perm.refl l)
    0 [true] multiDemoState ⟨by decide, by decide, by decide, by decide⟩
    { running := [1], remaining := [], current := 0, finishedStairs := [0, 2] } [0] rfl

/-! ## C8: promotion of a numeric key to an object array -/

/-- C8: on a still-numeric key, adding a value that fires the promotion
trigger (non-numeric or non-scalar) yields an object array of the same
length in which the written position holds the new value, every other
previously masked cell holds the placeholder `"--"`, and every other
previously written cell keeps its numeric value. -/
theorem dhAdd_promotes_to_object (cells : List (Bool × ℚ)) (p : ℕ) (v : PyVal)
    (hv : dhTriggers v = true) (hp : p < cells.length) :
    ∃ l, dhAddNumeric cells p v = ColArray.object l ∧
      l.length = cells.length ∧
      l.getD p (.num 0) = v ∧
      ∀ j, j < cells.length → j ≠ p →
        l.getD j (.num 0) =
          (if (cells.getD j (true, 0)).1 then PyVal.str "--"
           else PyVal.num (cells.getD j (true, 0)).2) := by
  have hclen : (dhConvertToObjectArray cells).length = cells.length := by
    unfold dhConvertToObjectArray
    rw [List.length_map]
  refine ⟨(dhConvertToObjectArray cells).set p v, ?_, ?_, ?_, ?_⟩
  · unfold dhAddNumeric
    rw [if_pos hv]
  · rw [List.length_set, hclen]
  · have hlen : p < ((dhConvertToObjectArray cells).set p v).length := by
      rw [List.length_set, hclen]; exact hp
    rw [List.getD_eq_getElem _ _ hlen, List.getElem_set_self]
  · intro j hj hjp
    have hjlen : j < ((dhConvertToObjectArray cells).set p v).length := by
      rw [List.length_set, hclen]; exact hj
    rw [List.getD_eq_getElem _ _ hjlen, List.getElem_set_ne (fun hpj => hjp hpj.symm)]
    unfold dhConvertToObjectArray
    rw [List.getElem_map, List.getD_eq_getElem _ _ hj]

/-- Witness for C8: a two-cell numeric column (cell 0 masked, cell 1
holding 5), written with a string at position 0. -/
theorem dhAdd_promotes_to_object_witness :
    ∃ l, dhAddNumeric [(true, 0), (false, 5)] 0 (.str "hello") = ColArray.object l ∧
      l.length = [((true : Bool), (0 : ℚ)), (false, 5)].length ∧
      l.getD 0 (.num 0) = .str "hello" ∧
      ∀ j, j < [((true : Bool), (0 : ℚ)), (false, 5)].length → j ≠ 0 →
        l.getD j (.num 0) =
          (if ([((true : Bool), (0 : ℚ)), (false, 5)].getD j (true, 0)).1 then PyVal.str "--"
           else PyVal.num ([((true : Bool), (0 : ℚ)), (false, 5)].getD j (true, 0)).2) :=
  dhAdd_promotes_to_object [(true, 0), (false, 5)] 0 (.str "hello") rfl (by decide)

/-! ## C9: the `expectedMin` check of `PsiHandler` -/

/-- C9: `PsiHandler` construction raises `NotImplementedError` exactly when
the supplied `expectedMin` is neither `0` (Yes/No) nor `0.5` (2-AFC). -/
theorem psiHandlerInit_error_iff (e : ℚ) :
    psiHandlerInit e = .error psiExpectedMinError ↔ ¬ (e = 0 ∨ e = 1 / 2) := by
  unfold psiHandlerInit
  split_ifs with h <;> simp_all

/-! ## C10: intensity override on the first QUEST trial -/

/-- C10: calling `QuestHandler.addResponse` with an explicit intensity
while no intensity has yet been recorded does not raise: the guard skips
the `pop`, the override is appended (so exactly one intensity is
recorded), and the posterior is updated with the overridden intensity. -/
theorem questAddResponse_first_trial_override (s : QuestState) (r : ℕ) (i : ℚ)
    (h : s.intensities = []) :
    questAddResponse s r (some i) =
      some { s with intensities := [i],
                    questUpdates := s.questUpdates ++ [(i, r)],
                    data := s.data ++ [r] } := by
  unfold questAddResponse
  rw [h]
  rfl

/-- Witness for C10: a fresh QUEST handler, response 1, override 7. -/
theorem questAddResponse_first_trial_override_witness :
    questAddResponse questDemoState 1 (some 7) =
      some { questDemoState with
               intensities := [7],
               questUpdates := questDemoState.questUpdates ++ [(7, 1)],
               data := questDemoState.data ++ [1] } :=
  questAddResponse_first_trial_override questDemoState 1 7 rfl

end Psy
